import Mathlib

/-!
Shallow embedding of the receipt-scoring service (`src/app.py`) and proofs
about it.  Pure Python functions become Lean functions; the mutable
`receipts` dictionary becomes explicit state passing; exceptions become
`Except`.  Python `float` values are modelled exactly as the rationals
representable in IEEE-754 binary64, with `roundDouble` performing the
round-to-nearest, ties-to-even rounding used by CPython for `float(str)`
and for float multiplication.  Strings are modelled over their ASCII
fragment (all string literals in the program and its tests are ASCII).
-/

namespace ReceiptApp

/-- A Python value as it arrives from JSON deserialization (`request.json`). -/
inductive PyVal where
  | str (s : String)
  | int (n : ℤ)
  | float (q : ℚ)
  | list (xs : List PyVal)
  | dict (kvs : List (String × PyVal))
  | none

/-- Exceptions the embedded code can raise.  `process_receipt` catches only
`valueError`; `keyError` (raised by `item[attribute]` on a missing key) and
`typeError` escape the handler. -/
inductive PyError where
  | valueError (msg : String)
  | keyError (key : String)
  | typeError
deriving DecidableEq, Repr

/-- `isinstance(v, str)`. -/
def PyVal.isStr : PyVal → Bool
  | .str _ => true
  | _ => false

/-- `isinstance(v, dict)`. -/
def PyVal.isDict : PyVal → Bool
  | .dict _ => true
  | _ => false

/-- Python dict lookup as first-match search in an association list
(Python dicts have unique keys, so first-match agrees with dict lookup). -/
def pyLookup {α : Type} (kvs : List (String × α)) (k : String) : Option α :=
  (kvs.find? (fun p => p.1 = k)).map (fun p => p.2)

/-- Python dict assignment `d[k] = v`: overwrite if present, else append. -/
def pyInsert {α : Type} (kvs : List (String × α)) (k : String) (v : α) :
    List (String × α) :=
  if (pyLookup kvs k).isSome then
    kvs.map (fun p => if p.1 = k then (k, v) else p)
  else kvs ++ [(k, v)]

/-- ASCII fragment of Python's whitespace class (`\s`, `str.isspace`). -/
def pyIsSpace (c : Char) : Bool :=
  c = ' ' ∨ c = '\t' ∨ c = '\n' ∨ c = '\x0d' ∨ c = '\x0b' ∨ c = '\x0c'

/-- ASCII fragment of Python's `str.isalnum` / regex `\w` letters+digits. -/
def pyIsAlnum (c : Char) : Bool := c.isAlphanum

/-- Python `str.strip()`: drop leading and trailing whitespace. -/
def pyStrip (s : String) : String :=
  let l1 := s.toList.dropWhile pyIsSpace
  String.mk ((l1.reverse.dropWhile pyIsSpace).reverse)

/-- Numeric value of a list of ASCII digits. -/
def digitsToNat (cs : List Char) : ℕ :=
  cs.foldl (fun acc c => 10 * acc + (c.toNat - 48)) 0

/-- Core of the regex `^\d+\.\d{2}$`: one or more digits, a dot, exactly two
digits; returns the value in cents. -/
def parseAmountCore (cs : List Char) : Option ℕ :=
  let intPart := cs.takeWhile Char.isDigit
  let rest := cs.dropWhile Char.isDigit
  match intPart, rest with
  | [], _ => Option.none
  | _, ['.', d1, d2] =>
      if d1.isDigit ∧ d2.isDigit then
        Option.some (digitsToNat intPart * 100 + ((d1.toNat - 48) * 10 + (d2.toNat - 48)))
      else Option.none
  | _, _ => Option.none

/-- `re.match(r"^\d+\.\d{2}$", s)` together with the value (in cents) that
`float(s)` would parse.  Python's `$` also matches just before one trailing
newline, hence the second alternative. -/
def parseAmount (s : String) : Option ℕ :=
  match parseAmountCore s.toList with
  | Option.some n => Option.some n
  | Option.none =>
      if s.toList.getLast? = Option.some '\n' then parseAmountCore s.toList.dropLast
      else Option.none

/-- `re.match(r"^[\w\s\-]+$", s)`: non-empty, every character a word
character, whitespace or hyphen.  (The `$`-before-trailing-newline case is
absorbed because `\n` is itself in `\s`.) -/
def matchDescription (s : String) : Bool :=
  ¬ s.toList = [] ∧
    s.toList.all (fun c => pyIsAlnum c ∨ c = '_' ∨ pyIsSpace c ∨ c = '-')

/-- `re.match(r"\S+", s)` is truthy iff the string starts (match is anchored
at the beginning) with a non-whitespace character. -/
def matchNonSpaceStart (s : String) : Bool :=
  match s.toList with
  | [] => false
  | c :: _ => ¬ pyIsSpace c

/-! ### Exact model of IEEE-754 binary64 arithmetic on rationals

The arithmetic here is phrased through `mkRat`, `Rat.floor`, `Rat.ceil` and
a fuelled base-2 logarithm, all of which the kernel can evaluate (the
`Mul`/`Sub`/`Inv` instances on `ℚ` are irreducible and `Nat.log2` is
defined by well-founded recursion, so none of them reduce under `decide`).
Bridge lemmas below identify them with the standard operations. -/

/-- `Nat.log2` with explicit fuel, so that it evaluates in the kernel. -/
def natLog2Aux : ℕ → ℕ → ℕ
  | 0, _ => 0
  | fuel + 1, n => if 2 ≤ n then natLog2Aux fuel (n / 2) + 1 else 0

/-- `⌊log₂ n⌋` (and `0` for `n = 0`), evaluable by the kernel. -/
def natLog2 (n : ℕ) : ℕ := natLog2Aux n n

/-- Multiplication on `ℚ`, evaluable by the kernel. -/
def qmul (a b : ℚ) : ℚ := mkRat (a.num * b.num) (a.den * b.den)

/-- Subtraction on `ℚ`, evaluable by the kernel. -/
def qsub (a b : ℚ) : ℚ := mkRat (a.num * (b.den : ℤ) - b.num * (a.den : ℤ)) (a.den * b.den)

/-- `2 ^ e` as a rational, for an integer exponent. -/
def qpow2 (e : ℤ) : ℚ :=
  if 0 ≤ e then mkRat ((2 ^ e.toNat : ℕ) : ℤ) 1 else mkRat 1 (2 ^ (-e).toNat)

/-- Round a rational to the nearest integer, ties to even (the rounding of
IEEE-754 and of Python's `round`). -/
def rhe (q : ℚ) : ℤ :=
  let f := Rat.floor q
  let frac := qsub q (f : ℚ)
  if frac < mkRat 1 2 then f
  else if mkRat 1 2 < frac then f + 1
  else if f % 2 = 0 then f else f + 1

/-- `⌊log₂ q⌋` for a positive rational: for `q ≥ 1` take `⌊log₂ ⌊q⌋⌋`, and
for `0 < q < 1` with `q = n/d` take `-(⌊log₂ (⌈d/n⌉ - 1)⌋ + 1)`. -/
def floorLog2 (q : ℚ) : ℤ :=
  if 1 ≤ q then (natLog2 (Rat.floor q).toNat : ℤ)
  else -((natLog2 ((q.den + q.num.toNat - 1) / q.num.toNat - 1) : ℤ) + 1)

/-- Round a rational to the nearest IEEE-754 binary64 value (53-bit
significand, ties to even), as an exact rational.  Faithful on the normal
finite range, which covers every number handled in this development. -/
def roundDouble (q : ℚ) : ℚ :=
  if q = 0 then 0
  else
    let s : ℚ := if q < 0 then -q else q
    let e : ℤ := floorLog2 s - 52
    let r : ℚ := qmul ((rhe (qmul s (qpow2 (-e))) : ℤ) : ℚ) (qpow2 e)
    if q < 0 then -r else r

/-- Python `x % 0.25` for a nonnegative double `x` (exact: the remainder of
a binary64 value by `0.25` is itself representable). -/
def pyQuarterRem (x : ℚ) : ℚ := qsub x (mkRat (Rat.floor (qmul x 4)) 4)

/-! ### Constants of `app.py` -/

def required_receipt_attributes : List String :=
  ["retailer", "total", "items", "purchaseDate", "purchaseTime"]

def required_item_attributes : List String := ["shortDescription", "price"]

def POINTS_RETAILER_NAME_ALPHANUM_CHARACTER : ℤ := 1

def POINTS_TOTAL_HAS_NO_CENTS : ℤ := 50

def POINTS_TOTAL_IS_MULTIPLE_OF_QUARTERS : ℤ := 25

def POINTS_ITEMS_COUNT : ℤ := 5

/-- The Python float literal `0.2` is the binary64 value nearest to 1/5. -/
def POINTS_ITEM_DESCRIPTION : ℚ := roundDouble (mkRat 1 5)

def POINTS_ODD_PURCHASE_DAY : ℤ := 6

def POINTS_VALID_PURCHASE_HOUR : ℤ := 10

def REWARD_ITEM_DESCRIPTION_LENGTH_FACTOR : ℕ := 3

def REWARD_HOUR_START : ℕ := 14

def REWARD_HOUR_END : ℕ := 16

/-! ### `strptime` date and time parsing

CPython's `strptime` compiles a format string into a regex and requires it
to consume the whole input.  For `'%Y-%m-%d'` the field patterns are
`%Y = \d\d\d\d`, `%m = 1[0-2]|0[1-9]|[1-9]`, `%d = 3[01]|[12]\d|0[1-9]|[1-9]`,
and for `'%H:%M'` they are `%H = 2[0-3]|[0-1]\d|\d`, `%M = [0-5]\d|\d`.
Each two-digit alternative only matches when the following character could
not continue it, so the greedy committed parse below is equivalent to the
backtracking regex.  `datetime(year, month, day)` additionally requires
`1 ≤ year` and a real calendar day. -/

def digitVal (c : Char) : ℕ := c.toNat - 48

/-- `%m`: `1[0-2]|0[1-9]|[1-9]`, returning the month and unconsumed input. -/
def parseMonthField : List Char → Option (ℕ × List Char)
  | a :: b :: rest =>
      if (a = '1' ∧ '0' ≤ b ∧ b ≤ '2') ∨ (a = '0' ∧ '1' ≤ b ∧ b ≤ '9') then
        Option.some (digitVal a * 10 + digitVal b, rest)
      else if '1' ≤ a ∧ a ≤ '9' then Option.some (digitVal a, b :: rest)
      else Option.none
  | [a] => if '1' ≤ a ∧ a ≤ '9' then Option.some (digitVal a, []) else Option.none
  | [] => Option.none

/-- `%d` at the end of the input: `3[01]|[12]\d|0[1-9]|[1-9]`. -/
def parseDayField : List Char → Option ℕ
  | [a, b] =>
      if (a = '3' ∧ ('0' = b ∨ b = '1')) ∨ (('1' = a ∨ a = '2') ∧ b.isDigit) ∨
          (a = '0' ∧ '1' ≤ b ∧ b ≤ '9') then
        Option.some (digitVal a * 10 + digitVal b)
      else Option.none
  | [a] => if '1' ≤ a ∧ a ≤ '9' then Option.some (digitVal a) else Option.none
  | _ => Option.none

def isLeapYear (y : ℕ) : Bool := (y % 4 = 0 ∧ ¬ y % 100 = 0) ∨ y % 400 = 0

def daysInMonth (y m : ℕ) : ℕ :=
  if m = 2 then (if isLeapYear y then 29 else 28)
  else if m = 4 ∨ m = 6 ∨ m = 9 ∨ m = 11 then 30
  else 31

/-- `datetime.strptime(s, '%Y-%m-%d')`: `(year, month, day)` on success. -/
def pyParseDate (s : String) : Option (ℕ × ℕ × ℕ) :=
  match s.toList with
  | y1 :: y2 :: y3 :: y4 :: '-' :: rest =>
      if y1.isDigit ∧ y2.isDigit ∧ y3.isDigit ∧ y4.isDigit then
        let y := digitsToNat [y1, y2, y3, y4]
        match parseMonthField rest with
        | Option.some (m, '-' :: rest2) =>
            match parseDayField rest2 with
            | Option.some d =>
                if 1 ≤ y ∧ d ≤ daysInMonth y m then Option.some (y, m, d)
                else Option.none
            | Option.none => Option.none
        | _ => Option.none
      else Option.none
  | _ => Option.none

/-- `%H`: `2[0-3]|[0-1]\d|\d`, returning the hour and unconsumed input. -/
def parseHourField : List Char → Option (ℕ × List Char)
  | a :: b :: rest =>
      if (a = '2' ∧ '0' ≤ b ∧ b ≤ '3') ∨ (('0' = a ∨ a = '1') ∧ b.isDigit) then
        Option.some (digitVal a * 10 + digitVal b, rest)
      else if a.isDigit then Option.some (digitVal a, b :: rest)
      else Option.none
  | [a] => if a.isDigit then Option.some (digitVal a, []) else Option.none
  | [] => Option.none

/-- `%M` at the end of the input: `[0-5]\d|\d`. -/
def parseMinuteField : List Char → Option ℕ
  | [a, b] =>
      if '0' ≤ a ∧ a ≤ '5' ∧ b.isDigit then Option.some (digitVal a * 10 + digitVal b)
      else Option.none
  | [a] => if a.isDigit then Option.some (digitVal a) else Option.none
  | _ => Option.none

/-- `datetime.strptime(s, '%H:%M')`: `(hour, minute)` on success. -/
def pyParseTime (s : String) : Option (ℕ × ℕ) :=
  match parseHourField s.toList with
  | Option.some (h, ':' :: rest) =>
      match parseMinuteField rest with
      | Option.some m => Option.some (h, m)
      | Option.none => Option.none
  | _ => Option.none

/-! ### The functions of `app.py` -/

/-- `validate_retailer_name`: raise unless the name matches `re.match(r"\S+", ·)`. -/
def validate_retailer_name (retailer_name : String) : Except PyError Unit :=
  if ¬ matchNonSpaceStart retailer_name then
    .error (.valueError s!"Error: invalid receipt retailer name ({retailer_name})")
  else .ok ()

/-- `score_retailer`: one point per alphanumeric character. -/
def score_retailer (retailer_name : String) : Except PyError ℤ := do
  validate_retailer_name retailer_name
  .ok (retailer_name.toList.foldl
    (fun acc c => acc + (if pyIsAlnum c then POINTS_RETAILER_NAME_ALPHANUM_CHARACTER else 0)) 0)

/-- `validate_total`: raise unless the total matches `^\d+\.\d{2}$`. -/
def validate_total (total : String) : Except PyError Unit :=
  if (parseAmount total).isNone then
    .error (.valueError s!"Error: invalid receipt total ({total})")
  else .ok ()

/-- `score_total`: `float(total)` compared with `round(...)` (+50) and taken
`% 0.25` (+25), on the exactly-modelled binary64 value. -/
def score_total (total : String) : Except PyError ℤ := do
  validate_total total
  let parsed_total : ℚ := roundDouble (mkRat ((parseAmount total).getD 0 : ℕ) 100)
  let rounded_total : ℤ := rhe parsed_total
  let points : ℤ :=
    (if parsed_total = (rounded_total : ℚ) then POINTS_TOTAL_HAS_NO_CENTS else 0) +
      (if pyQuarterRem parsed_total = 0 then POINTS_TOTAL_IS_MULTIPLE_OF_QUARTERS else 0)
  .ok points

/-- `validate_item`: description must match `^[\w\s\-]+$`, price `^\d+\.\d{2}$`. -/
def validate_item (description price : String) : Except PyError Unit :=
  if ¬ matchDescription description then
    .error (.valueError s!"Error: invalid item description ({description})")
  else if (parseAmount price).isNone then
    .error (.valueError s!"Error: invalid item price ({price})")
  else .ok ()

/-- `item[key]` for an item that reached `score_items`: a missing key raises
`KeyError`; a non-string value would make `re.match` raise `TypeError`. -/
def pyGetStr (v : PyVal) (key : String) : Except PyError String :=
  match v with
  | .dict kvs =>
      match pyLookup kvs key with
      | Option.some (.str s) => .ok s
      | Option.some _ => .error .typeError
      | Option.none => .error (.keyError key)
  | _ => .error .typeError

/-- `math.ceil(float(price) * 0.2)` on the exactly-modelled binary64 values:
parse, round to binary64, multiply by the double `0.2`, round the product,
take the exact ceiling. -/
def itemDescriptionBonus (price : String) : ℤ :=
  Rat.ceil (roundDouble
    (qmul (roundDouble (mkRat ((parseAmount price).getD 0 : ℕ) 100)) POINTS_ITEM_DESCRIPTION))

/-- The `for item in items` loop body of `score_items`. -/
def score_items_loop : List PyVal → Except PyError ℤ
  | [] => .ok 0
  | item :: rest => do
      let description ← pyGetStr item "shortDescription"
      let price ← pyGetStr item "price"
      validate_item description price
      let pts : ℤ :=
        if (pyStrip description).length % REWARD_ITEM_DESCRIPTION_LENGTH_FACTOR = 0 then
          itemDescriptionBonus price
        else 0
      let restPts ← score_items_loop rest
      .ok (pts + restPts)

/-- `score_items`: `(count // 2) * 5` plus the per-item description bonuses,
validating each item's formats along the way. -/
def score_items (items : List PyVal) : Except PyError ℤ := do
  let count := items.length
  let loopPts ← score_items_loop items
  .ok ((count / 2 : ℕ) * POINTS_ITEMS_COUNT + loopPts)

/-- `score_date_time`: +6 for an odd day of month, +10 for an hour in `[14, 16)`. -/
def score_date_time (date time : String) : Except PyError ℤ :=
  match pyParseDate date with
  | Option.none => .error (.valueError s!"Error: invalid receipt purchase date ({date})")
  | Option.some (_, _, d) =>
      match pyParseTime time with
      | Option.none => .error (.valueError s!"Error: invalid receipt purchase time ({time})")
      | Option.some (h, _) =>
          .ok ((if ¬ d % 2 = 0 then POINTS_ODD_PURCHASE_DAY else 0) +
            (if REWARD_HOUR_START ≤ h ∧ h < REWARD_HOUR_END then POINTS_VALID_PURCHASE_HOUR else 0))

/-- The item part of `validate_receipt_json_structure`: `item[attribute]`
raises `KeyError` on a missing key, and a non-string value raises the
`"invalid receipt item format"` `ValueError`. -/
def validate_item_attribute (kvs : List (String × PyVal)) (attr : String) :
    Except PyError Unit :=
  match pyLookup kvs attr with
  | Option.none => .error (.keyError attr)
  | Option.some (.str _) => .ok ()
  | Option.some _ => .error (.valueError "Error: invalid receipt item format")

/-- The `for item in receipt["items"]` loop of `validate_receipt_json_structure`. -/
def validate_items_loop : List PyVal → Except PyError Unit
  | [] => .ok ()
  | item :: rest =>
      match item with
      | .dict kvs => do
          validate_item_attribute kvs "shortDescription"
          validate_item_attribute kvs "price"
          validate_items_loop rest
      | _ => .error (.valueError "Error: invalid receipt item format")

/-- The `for attribute in required_receipt_attributes` loop: per attribute,
presence first, then (except for `items`) the string-type check. -/
def validate_attributes_loop (receipt : List (String × PyVal)) :
    List String → Except PyError Unit
  | [] => .ok ()
  | attr :: rest =>
      match pyLookup receipt attr with
      | Option.none => .error (.valueError s!"Error: missing {attr} in receipt")
      | Option.some v =>
          if ¬ attr = "items" ∧ ¬ v.isStr then
            .error (.valueError s!"Error: invalid {attr} format")
          else validate_attributes_loop receipt rest

/-- `validate_receipt_json_structure`. -/
def validate_receipt_json_structure (receipt : List (String × PyVal)) :
    Except PyError Unit := do
  validate_attributes_loop receipt required_receipt_attributes
  match pyLookup receipt "items" with
  | Option.none => .error (.keyError "items")
  | Option.some v =>
      match v with
      | .list items =>
          if items.length < 1 then .error (.valueError "Error: receipt items list is empty")
          else validate_items_loop items
      | _ => .error (.valueError "Error: invalid receipt items list format")

/-- `receipt[key]` inside `calculate_points` (keys exist and hold strings
after validation; otherwise `KeyError` / `TypeError` as in Python). -/
def receiptGetStr (receipt : List (String × PyVal)) (key : String) :
    Except PyError String :=
  match pyLookup receipt key with
  | Option.none => .error (.keyError key)
  | Option.some (.str s) => .ok s
  | Option.some _ => .error .typeError

/-- `calculate_points`: sum of the four scoring components, each field
looked up just before its component is scored, as in the source. -/
def calculate_points (receipt : List (String × PyVal)) : Except PyError ℤ := do
  let retailer ← receiptGetStr receipt "retailer"
  let p1 ← score_retailer retailer
  let total ← receiptGetStr receipt "total"
  let p2 ← score_total total
  let items ←
    match pyLookup receipt "items" with
    | Option.some (.list xs) => Except.ok xs
    | Option.some _ => Except.error PyError.typeError
    | Option.none => Except.error (PyError.keyError "items")
  let p3 ← score_items items
  let purchaseDate ← receiptGetStr receipt "purchaseDate"
  let purchaseTime ← receiptGetStr receipt "purchaseTime"
  let p4 ← score_date_time purchaseDate purchaseTime
  .ok (p1 + p2 + p3 + p4)

/-- Outcome of a `POST /receipts/process` request. -/
inductive SubmitOutcome where
  | success (receipt_id : String)
  | clientError (msg : String)
  | uncaught (e : PyError)
deriving DecidableEq, Repr

/-- Outcome of a `GET /receipts/{id}/points` request. -/
inductive GetOutcome where
  | found (points : ℤ)
  | notFound (msg : String)
deriving DecidableEq, Repr

/-- `process_receipt`: validate, score, store — with `except ValueError`
turning exactly the `ValueError`s into 400 responses; any other exception
escapes the handler.  Returns the response and the updated store. -/
def process_receipt (receipts : List (String × ℤ)) (receipt_id : String)
    (receipt : List (String × PyVal)) : SubmitOutcome × List (String × ℤ) :=
  match validate_receipt_json_structure receipt with
  | .error (.valueError msg) => (.clientError msg, receipts)
  | .error e => (.uncaught e, receipts)
  | .ok () =>
      match calculate_points receipt with
      | .error (.valueError msg) => (.clientError msg, receipts)
      | .error e => (.uncaught e, receipts)
      | .ok pts => (.success receipt_id, pyInsert receipts receipt_id pts)

/-- `get_points`: a pure lookup in the store. -/
def get_points (receipts : List (String × ℤ)) (receipt_id : String) : GetOutcome :=
  match pyLookup receipts receipt_id with
  | Option.none => .notFound s!"ERROR: receipt id not found ({receipt_id})"
  | Option.some p => .found p

/-- A request hitting one of the two routes. -/
inductive Request where
  | submit (receipt_id : String) (receipt : List (String × PyVal))
  | retrieve (receipt_id : String)

/-- One request against the store: `retrieve` leaves the store untouched
(the handler only reads), `submit` runs `process_receipt`. -/
def step (receipts : List (String × ℤ)) : Request → List (String × ℤ)
  | .submit receipt_id receipt => (process_receipt receipts receipt_id receipt).2
  | .retrieve _ => receipts

/-- Run a sequence of requests against the store. -/
def runRequests (receipts : List (String × ℤ)) : List Request → List (String × ℤ)
  | [] => receipts
  | r :: rest => runRequests (step receipts r) rest

/-! ### The example receipts of `test.py` -/

/-- An item dictionary with the two required fields. -/
def mkItem (description price : String) : PyVal :=
  .dict [("shortDescription", .str description), ("price", .str price)]

/-- The 5-item Target receipt from `test.py` (expected 28 points). -/
def targetReceipt : List (String × PyVal) :=
  [("retailer", .str "Target"),
   ("purchaseDate", .str "2022-01-01"),
   ("purchaseTime", .str "13:01"),
   ("items", .list
      [mkItem "Mountain Dew 12PK" "6.49",
       mkItem "Emils Cheese Pizza" "12.25",
       mkItem "Knorr Creamy Chicken" "1.26",
       mkItem "Doritos Nacho Cheese" "3.35",
       mkItem "   Klarbrunn 12-PK 12 FL OZ  " "12.00"]),
   ("total", .str "35.35")]

/-- The 4-item Gatorade receipt from `test.py` (expected 109 points). -/
def gatoradeReceipt : List (String × PyVal) :=
  [("retailer", .str "M&M Corner Market"),
   ("purchaseDate", .str "2022-03-20"),
   ("purchaseTime", .str "14:33"),
   ("items", .list
      [mkItem "Gatorade" "2.25", mkItem "Gatorade" "2.25",
       mkItem "Gatorade" "2.25", mkItem "Gatorade" "2.25"]),
   ("total", .str "9.00")]

/-- The 1-item receipt used as a skeleton throughout `test.py` (31 points). -/
def simpleReceipt : List (String × PyVal) :=
  [("retailer", .str "Target"),
   ("purchaseDate", .str "2022-01-02"),
   ("purchaseTime", .str "13:13"),
   ("total", .str "1.25"),
   ("items", .list [mkItem "Pepsi - 12-oz" "1.25"])]

/-- A receipt like `simpleReceipt` with the given items list. -/
def mkReceipt (items : List PyVal) : List (String × PyVal) :=
  [("retailer", .str "Target"),
   ("purchaseDate", .str "2022-01-02"),
   ("purchaseTime", .str "13:13"),
   ("total", .str "1.25"),
   ("items", .list items)]

/-- A receipt whose only item lacks the `shortDescription` key. -/
def missingDescriptionReceipt : List (String × PyVal) :=
  mkReceipt [.dict [("price", .str "1.25")]]

/-- A receipt whose only item lacks the `price` key. -/
def missingPriceReceipt : List (String × PyVal) :=
  mkReceipt [.dict [("shortDescription", .str "Pepsi - 12-oz")]]

/-- A receipt with a wrongly-typed `retailer` (an integer) and a missing
`purchaseTime` field. -/
def badTypeMissingFieldReceipt : List (String × PyVal) :=
  [("retailer", .int 5),
   ("total", .str "1.25"),
   ("items", .list [mkItem "Pepsi - 12-oz" "1.25"]),
   ("purchaseDate", .str "2022-01-02")]

/-! ### Agreement of receipts on their declared fields (for the
extra-field-insensitivity property) -/

/-- Two item values agree when both are dictionaries with the same
`shortDescription` and `price` entries (extra keys may differ), or are
literally equal. -/
def itemAgree (i1 i2 : PyVal) : Prop :=
  match i1, i2 with
  | .dict k1, .dict k2 =>
      pyLookup k1 "shortDescription" = pyLookup k2 "shortDescription" ∧
        pyLookup k1 "price" = pyLookup k2 "price"
  | v1, v2 => v1 = v2

/-- Agreement of the two `items` entries: pointwise item agreement when
both are lists, literal equality otherwise. -/
def itemsAgree : Option PyVal → Option PyVal → Prop
  | Option.some (.list l1), Option.some (.list l2) => List.Forall₂ itemAgree l1 l2
  | o1, o2 => o1 = o2

/-- Two receipt dictionaries agree on every field the program reads:
the four scalar fields and, item by item, the two item fields.  Extra
top-level keys and extra item keys are unconstrained. -/
def receiptAgree (r1 r2 : List (String × PyVal)) : Prop :=
  pyLookup r1 "retailer" = pyLookup r2 "retailer" ∧
    pyLookup r1 "total" = pyLookup r2 "total" ∧
    pyLookup r1 "purchaseDate" = pyLookup r2 "purchaseDate" ∧
    pyLookup r1 "purchaseTime" = pyLookup r2 "purchaseTime" ∧
    itemsAgree (pyLookup r1 "items") (pyLookup r2 "items")

/-- `simpleReceipt` with an extra top-level key and an extra item key. -/
def decoratedSimpleReceipt : List (String × PyVal) :=
  [("retailer", .str "Target"),
   ("purchaseDate", .str "2022-01-02"),
   ("purchaseTime", .str "13:13"),
   ("total", .str "1.25"),
   ("cashier", .int 12),
   ("items", .list
      [.dict [("shortDescription", .str "Pepsi - 12-oz"), ("price", .str "1.25"),
              ("sku", .int 99)]])]

end ReceiptApp

deriving instance DecidableEq for Except

namespace ReceiptApp

/-! ## Bridge lemmas: the kernel-evaluable arithmetic agrees with the
standard `ℚ` operations -/

theorem den_cast_ne_zero (a : ℚ) : ((a.den : ℚ)) ≠ 0 := by
  exact_mod_cast a.den_ne_zero

theorem mkRat_eq_div (n : ℤ) (d : ℕ) : (mkRat n d : ℚ) = (n : ℚ) / (d : ℚ) := by
  rw [Rat.mkRat_eq_divInt, Rat.divInt_eq_div]
  norm_num

theorem qmul_eq (a b : ℚ) : qmul a b = a * b := by
  rw [qmul, mkRat_eq_div]
  push_cast
  conv_rhs => rw [← Rat.num_div_den a, ← Rat.num_div_den b]
  rw [div_mul_div_comm]

theorem qsub_eq (a b : ℚ) : qsub a b = a - b := by
  rw [qsub, mkRat_eq_div]
  push_cast
  conv_rhs => rw [← Rat.num_div_den a, ← Rat.num_div_den b]
  rw [div_sub_div _ _ (den_cast_ne_zero a) (den_cast_ne_zero b)]
  ring_nf

theorem qpow2_eq (e : ℤ) : qpow2 e = (2 : ℚ) ^ e := by
  rw [qpow2]
  split
  case isTrue h =>
    rw [mkRat_eq_div]
    push_cast
    rw [div_one, ← zpow_natCast, Int.toNat_of_nonneg h]
  case isFalse h =>
    rw [mkRat_eq_div]
    push_cast
    rw [one_div, ← zpow_natCast, Int.toNat_of_nonneg (by omega), ← zpow_neg, neg_neg]

theorem ratFloor_eq (q : ℚ) : Rat.floor q = ⌊q⌋ :=
  (Rat.floor_def' q).trans Rat.floor_def.symm

theorem ratCeil_eq (q : ℚ) : Rat.ceil q = ⌈q⌉ := by
  rw [Rat.ceil]
  split
  case isTrue h =>
    conv_rhs => rw [← (Rat.den_eq_one_iff q).mp h]
    rw [Int.ceil_intCast]
  case isFalse h =>
    have hf : (↑(q.num / (q.den : ℤ)) : ℚ) = (⌊q⌋ : ℚ) := by rw [← Rat.floor_def]
    have hfl : ((⌊q⌋ : ℤ) : ℚ) ≤ q := Int.floor_le q
    have hfu : q < (⌊q⌋ : ℚ) + 1 := Int.lt_floor_add_one q
    have hne : q ≠ ((⌊q⌋ : ℤ) : ℚ) := by
      intro hq
      exact h (by rw [hq]; exact Rat.den_intCast _)
    refine le_antisymm (Int.add_one_le_ceil_iff.mpr ?_) (Int.ceil_le.mpr ?_)
    · rw [← Rat.floor_def]
      exact lt_of_le_of_ne hfl (by simpa [eq_comm] using hne)
    · rw [← Rat.floor_def]
      push_cast
      push_cast at hfu
      linarith

theorem natLog2Aux_eq (fuel : ℕ) : ∀ n : ℕ, n ≤ fuel → natLog2Aux fuel n = Nat.log2 n := by
  induction fuel with
  | zero =>
      intro n hn
      have hn0 : n = 0 := Nat.le_zero.mp hn
      subst hn0
      rw [natLog2Aux, Nat.log2]
      norm_num
  | succ fuel ih =>
      intro n hn
      rw [natLog2Aux, Nat.log2]
      by_cases h2 : 2 ≤ n
      · rw [if_pos h2, if_pos h2, ih (n / 2) (by omega)]
      · rw [if_neg h2, if_neg h2]

theorem natLog2_eq (n : ℕ) : natLog2 n = Nat.log2 n := natLog2Aux_eq n n le_rfl

/-- Upper characterization of the fuelled base-2 logarithm. -/
theorem natLog2_lt {n m : ℕ} (hn : n ≠ 0) (h : n < 2 ^ m) : natLog2 n < m := by
  rw [natLog2_eq, Nat.log2_eq_log_two]
  exact Nat.log_lt_of_lt_pow hn h

/-- Lower characterization of the fuelled base-2 logarithm. -/
theorem lt_two_pow_natLog2_succ (n : ℕ) : n < 2 ^ (natLog2 n + 1) := by
  rw [natLog2_eq, Nat.log2_eq_log_two]
  exact Nat.lt_pow_succ_log_self (by norm_num) n

/-- Round-half-even in terms of the standard floor and fractional part. -/
theorem rhe_def (q : ℚ) : rhe q =
    if q - ⌊q⌋ < 1/2 then ⌊q⌋
    else if 1/2 < q - ⌊q⌋ then ⌊q⌋ + 1
    else if ⌊q⌋ % 2 = 0 then ⌊q⌋ else ⌊q⌋ + 1 := by
  simp only [rhe, qsub_eq, ratFloor_eq, mkRat_eq_div]
  norm_num

theorem rhe_intCast (z : ℤ) : rhe (z : ℚ) = z := by
  rw [rhe_def, Int.floor_intCast]
  norm_num

/-- Rounding an integer plus a fractional part below one half truncates. -/
theorem rhe_add_fract {M : ℤ} {f : ℚ} (h0 : 0 ≤ f) (h : f < 1/2) :
    rhe ((M : ℚ) + f) = M := by
  have hfl : ⌊(M : ℚ) + f⌋ = M := by
    rw [Int.floor_eq_iff]
    constructor
    · linarith
    · linarith
  rw [rhe_def, hfl, if_pos]
  linarith

/-- Round-half-even moves its argument by at most one half. -/
theorem rhe_abs_le (q : ℚ) : |((rhe q : ℤ) : ℚ) - q| ≤ 1/2 := by
  have hfl : ((⌊q⌋ : ℤ) : ℚ) ≤ q := Int.floor_le q
  have hfu : q < (⌊q⌋ : ℚ) + 1 := Int.lt_floor_add_one q
  rw [rhe_def]
  split
  case isTrue h => rw [abs_sub_comm, abs_of_nonneg (by linarith)]; linarith
  case isFalse h =>
    split
    case isTrue h2 =>
      push_cast
      rw [abs_of_nonneg (by linarith)]
      linarith
    case isFalse h2 =>
      have hh : q - ⌊q⌋ = 1/2 := le_antisymm (not_lt.mp h2) (not_lt.mp h)
      split
      case isTrue h3 => rw [abs_sub_comm, abs_of_nonneg (by linarith)]; linarith
      case isFalse h3 =>
        push_cast
        rw [abs_of_nonneg (by linarith)]
        linarith

/-- The result of round-half-even equals its input iff the input is an
integer (i.e. has denominator one). -/
theorem rhe_cast_eq_self_iff (q : ℚ) : ((rhe q : ℤ) : ℚ) = q ↔ q.den = 1 := by
  constructor
  · intro h
    rw [← h]
    exact Rat.den_intCast _
  · intro h
    have hq : (q.num : ℚ) = q := (Rat.den_eq_one_iff q).mp h
    rw [← hq, rhe_intCast]

/-! ## Properties of the binary64 rounding -/

theorem floorLog2_of_one_le {q : ℚ} (h : 1 ≤ q) :
    floorLog2 q = (natLog2 ⌊q⌋.toNat : ℤ) := by
  rw [floorLog2, if_pos h, ratFloor_eq]

/-- A positive rational below `2 ^ V` has base-2 logarithm at most `V - 1`. -/
theorem floorLog2_le {q : ℚ} {V : ℕ} (h0 : 0 < q) (h : q < (2 : ℚ) ^ V) :
    floorLog2 q ≤ (V : ℤ) - 1 := by
  rw [floorLog2, ratFloor_eq]
  split
  case isTrue h1 =>
    have hm1 : 1 ≤ ⌊q⌋ := Int.le_floor.mpr (by exact_mod_cast h1)
    have hmV : ⌊q⌋ < (2 ^ V : ℤ) := by
      apply Int.floor_lt.mpr
      push_cast
      exact h
    have hcast : ((2 : ℤ) ^ V) = ((2 ^ V : ℕ) : ℤ) := by push_cast; ring
    have hlog := @natLog2_lt ⌊q⌋.toNat V (by omega) (by omega)
    omega
  case isFalse h1 => omega

theorem roundDouble_pos_eq {q : ℚ} (h : 0 < q) :
    roundDouble q =
      ((rhe (q * (2 : ℚ) ^ (52 - floorLog2 q)) : ℤ) : ℚ) *
        (2 : ℚ) ^ (floorLog2 q - 52) := by
  simp only [roundDouble, qmul_eq, qpow2_eq, if_neg (ne_of_gt h),
    if_neg (not_lt.mpr h.le), neg_sub]

/-- Rounding is exact on values whose scaled significand is an integer. -/
theorem roundDouble_eq_self {q : ℚ} (h0 : 0 < q) {z : ℤ}
    (hz : (z : ℚ) = q * (2 : ℚ) ^ (52 - floorLog2 q)) : roundDouble q = q := by
  rw [roundDouble_pos_eq h0, ← hz, rhe_intCast, hz, mul_assoc,
    ← zpow_add₀ (by norm_num : (2 : ℚ) ≠ 0)]
  have he : 52 - floorLog2 q + (floorLog2 q - 52) = 0 := by ring
  rw [he, zpow_zero, mul_one]

/-- The binary64 rounding of a positive value below `2 ^ V` moves it by at
most `2 ^ V / 2 ^ 54` (a half-ulp bound). -/
theorem roundDouble_err {q : ℚ} {V : ℕ} (h0 : 0 < q) (hV : q < (2 : ℚ) ^ V) :
    |roundDouble q - q| ≤ (2 : ℚ) ^ (V : ℤ) / 2 ^ 54 := by
  rw [roundDouble_pos_eq h0]
  set e0 := floorLog2 q with he0
  have he : e0 ≤ (V : ℤ) - 1 := floorLog2_le h0 hV
  set x := q * (2 : ℚ) ^ (52 - e0) with hx
  have hq : q = x * (2 : ℚ) ^ (e0 - 52) := by
    rw [hx, mul_assoc, ← zpow_add₀ (by norm_num : (2 : ℚ) ≠ 0)]
    have hee : 52 - e0 + (e0 - 52) = 0 := by ring
    rw [hee, zpow_zero, mul_one]
  calc |((rhe x : ℤ) : ℚ) * (2 : ℚ) ^ (e0 - 52) - q|
      = |((rhe x : ℤ) : ℚ) - x| * (2 : ℚ) ^ (e0 - 52) := by
        conv_lhs => rw [hq]
        have habs : |(2 : ℚ) ^ (e0 - 52)| = (2 : ℚ) ^ (e0 - 52) :=
          abs_of_pos (zpow_pos two_pos _)
        rw [← sub_mul, abs_mul, habs]
    _ ≤ (1 / 2) * (2 : ℚ) ^ (e0 - 52) :=
        mul_le_mul_of_nonneg_right (rhe_abs_le x) (le_of_lt (zpow_pos two_pos _))
    _ ≤ (1 / 2) * (2 : ℚ) ^ ((V : ℤ) - 53) := by
        apply mul_le_mul_of_nonneg_left _ (by norm_num)
        apply zpow_le_zpow_right₀ (by norm_num : (1 : ℚ) ≤ 2)
        omega
    _ = (2 : ℚ) ^ (V : ℤ) / 2 ^ 54 := by
        rw [zpow_sub₀ (by norm_num : (2 : ℚ) ≠ 0), div_mul_div_comm, one_mul]
        norm_num

/-- Rounding is exact on positive quarter-integers below `2 ^ 47`. -/
theorem roundDouble_quarter {z : ℤ} (hz : 0 < z) (hlt : (z : ℚ) < 4 * 2 ^ 47) :
    roundDouble ((z : ℚ) / 4) = (z : ℚ) / 4 := by
  have h0 : 0 < (z : ℚ) / 4 := by positivity
  have hV : (z : ℚ) / 4 < (2 : ℚ) ^ 47 := by
    rw [div_lt_iff (by norm_num)]
    linarith
  have he : floorLog2 ((z : ℚ) / 4) ≤ 46 := by
    have := floorLog2_le h0 hV
    omega
  have hnn : (0 : ℤ) ≤ 50 - floorLog2 ((z : ℚ) / 4) := by omega
  apply @roundDouble_eq_self ((z : ℚ) / 4) h0 (z * 2 ^ (50 - floorLog2 ((z : ℚ) / 4)).toNat)
  push_cast
  rw [← zpow_natCast (2 : ℚ), Int.toNat_of_nonneg hnn, div_mul_eq_mul_div,
    eq_div_iff (by norm_num : (4 : ℚ) ≠ 0), mul_assoc]
  congr 1
  have h4 : (4 : ℚ) = (2 : ℚ) ^ (2 : ℤ) := by norm_num
  rw [h4, ← zpow_add₀ (by norm_num : (2 : ℚ) ≠ 0)]
  congr 1
  ring

/-- Rounding is exact on positive integers below `2 ^ 47`. -/
theorem roundDouble_intCast {k : ℤ} (hk : 0 < k) (hlt : (k : ℚ) < 2 ^ 47) :
    roundDouble (k : ℚ) = (k : ℚ) := by
  have h4 : ((4 * k : ℤ) : ℚ) / 4 = (k : ℚ) := by push_cast; ring
  rw [← h4]
  exact roundDouble_quarter (by omega) (by push_cast; linarith)

/-- Rounding `k + k / 2 ^ 54` for `1 ≤ k < 2 ^ 43` drops the tiny excess:
the significand fraction is below one half, so round-half-even truncates. -/
theorem roundDouble_int_add_small {k : ℕ} (h1 : 1 ≤ k) (hk : k < 2 ^ 43) :
    roundDouble ((k : ℚ) + (k : ℚ) / 2 ^ 54) = (k : ℚ) := by
  set q := (k : ℚ) + (k : ℚ) / 2 ^ 54 with hqdef
  clear_value q
  have hk0 : (0 : ℚ) < k := by exact_mod_cast h1
  have hfrac0 : 0 ≤ (k : ℚ) / 2 ^ 54 := by positivity
  have hfrac1 : (k : ℚ) / 2 ^ 54 < 1 := by
    rw [div_lt_one (by positivity)]
    calc (k : ℚ) < 2 ^ 43 := by exact_mod_cast hk
      _ ≤ 2 ^ 54 := by norm_num
  have h0 : 0 < q := by rw [hqdef]; positivity
  have hq1 : 1 ≤ q := by
    rw [hqdef]
    have hk1 : (1 : ℚ) ≤ k := by exact_mod_cast h1
    linarith
  have hfl : ⌊q⌋ = (k : ℤ) := by
    rw [Int.floor_eq_iff]
    constructor
    · push_cast
      linarith
    · push_cast
      linarith
  have he0 : floorLog2 q = (natLog2 k : ℤ) := by
    rw [floorLog2_of_one_le hq1, hfl, Int.toNat_natCast]
  set e0n := natLog2 k with he0n
  have hklow : k < 2 ^ (e0n + 1) := lt_two_pow_natLog2_succ k
  have hehi : e0n ≤ 42 := by
    have h43 := @natLog2_lt k 43 (by omega) hk
    omega
  have hpow : (2 : ℚ) ^ (52 - e0n) * (2 : ℚ) ^ (e0n + 2) = 2 ^ 54 := by
    rw [← pow_add]
    congr 1
    omega
  have hA : (2 : ℚ) ^ (52 - e0n) = 2 ^ 54 / 2 ^ (e0n + 2) := by
    rw [eq_div_iff (by positivity)]
    exact hpow
  have hT : (2 : ℚ) ^ (52 - floorLog2 q) = (2 : ℚ) ^ ((52 - e0n : ℕ) : ℤ) := by
    rw [he0]
    congr 1
    omega
  have hx : q * (2 : ℚ) ^ (52 - floorLog2 q) =
      (((k * 2 ^ (52 - e0n) : ℕ) : ℤ) : ℚ) + (k : ℚ) / 2 ^ (e0n + 2) := by
    rw [hT, zpow_natCast, hqdef, add_mul]
    push_cast
    congr 1
    rw [div_mul_eq_mul_div, div_eq_div_iff (by positivity) (by positivity)]
    linear_combination (k : ℚ) * hpow
  have hf1 : (k : ℚ) / 2 ^ (e0n + 2) < 1 / 2 := by
    rw [div_lt_iff (by positivity)]
    have hklowq : (k : ℚ) < 2 ^ (e0n + 1) := by exact_mod_cast hklow
    have hsucc : (2 : ℚ) ^ (e0n + 2) = 2 ^ (e0n + 1) * 2 := pow_succ 2 (e0n + 1)
    rw [hsucc]
    linarith
  have hrhe : rhe (q * (2 : ℚ) ^ (52 - floorLog2 q)) = ((k * 2 ^ (52 - e0n) : ℕ) : ℤ) := by
    rw [hx]
    exact rhe_add_fract (by positivity) hf1
  rw [roundDouble_pos_eq h0, hrhe, he0]
  push_cast
  rw [← zpow_natCast (2 : ℚ) (52 - e0n), mul_assoc,
    ← zpow_add₀ (by norm_num : (2 : ℚ) ≠ 0)]
  have hz : ((52 - e0n : ℕ) : ℤ) + ((e0n : ℤ) - 52) = 0 := by omega
  rw [hz, zpow_zero, mul_one]

/-- Python `x % 0.25 == 0` holds exactly on quarter-integers. -/
theorem pyQuarterRem_eq_zero_iff (x : ℚ) :
    pyQuarterRem x = 0 ↔ ∃ z : ℤ, x = (z : ℚ) / 4 := by
  rw [pyQuarterRem, qsub_eq, mkRat_eq_div, qmul_eq, ratFloor_eq]
  constructor
  · intro h
    refine ⟨⌊x * 4⌋, ?_⟩
    push_cast at h ⊢
    linarith
  · rintro ⟨z, rfl⟩
    rw [div_mul_cancel₀ _ (by norm_num : (4 : ℚ) ≠ 0), Int.floor_intCast]
    push_cast
    ring

/-! ## Characterization of the total score -/

/-- Unfolding of `score_total` on a string accepted by the total regex. -/
theorem score_total_eq {s : String} {n : ℕ} (hp : parseAmount s = Option.some n) :
    score_total s = .ok
      ((if roundDouble (mkRat (n : ℕ) 100) = ((rhe (roundDouble (mkRat (n : ℕ) 100)) : ℤ) : ℚ)
          then POINTS_TOTAL_HAS_NO_CENTS else 0) +
        (if pyQuarterRem (roundDouble (mkRat (n : ℕ) 100)) = 0
          then POINTS_TOTAL_IS_MULTIPLE_OF_QUARTERS else 0)) := by
  simp only [score_total, validate_total, hp]
  rfl

/-- **C3** amended: for totals of numeric value below `2 ^ 47` dollars, the
score of the total is 50 exactly when the cent value is a multiple of 100
plus 25 exactly when it is a multiple of 25 — in this range the float
comparisons of the code coincide with exact decimal tests. -/
theorem claim_c3_amended {s : String} {n : ℕ} (hp : parseAmount s = Option.some n)
    (hb : n < 100 * 2 ^ 47) :
    score_total s =
      .ok ((if n % 100 = 0 then 50 else 0) + (if n % 25 = 0 then 25 else 0)) := by
  rw [score_total_eq hp]
  simp only [POINTS_TOTAL_HAS_NO_CENTS, POINTS_TOTAL_IS_MULTIPLE_OF_QUARTERS]
  have hq : (mkRat (n : ℕ) 100 : ℚ) = (n : ℚ) / 100 := by
    rw [mkRat_eq_div]
    norm_num
  by_cases h100 : n % 100 = 0
  · obtain ⟨k, hk⟩ : ∃ k, n = 100 * k := ⟨n / 100, by omega⟩
    have hxk : roundDouble (mkRat (n : ℕ) 100) = ((k : ℤ) : ℚ) := by
      rw [hq]
      have hnk : (n : ℚ) / 100 = ((k : ℤ) : ℚ) := by
        subst hk
        push_cast
        ring
      rw [hnk]
      by_cases hk0 : k = 0
      · subst hk0
        norm_num [roundDouble]
      · refine roundDouble_intCast (by omega) ?_
        have hklt : k < 2 ^ 47 := by omega
        push_cast
        exact_mod_cast hklt
    rw [hxk, rhe_intCast, if_pos rfl, if_pos, if_pos h100, if_pos (by omega)]
    exact (pyQuarterRem_eq_zero_iff _).mpr ⟨4 * k, by push_cast; ring⟩
  · by_cases h25n : n % 25 = 0
    · obtain ⟨m, hm⟩ : ∃ m, n = 25 * m := ⟨n / 25, by omega⟩
      have hm0 : 0 < m := by omega
      have hx : roundDouble (mkRat (n : ℕ) 100) = ((m : ℤ) : ℚ) / 4 := by
        rw [hq]
        have hnm : (n : ℚ) / 100 = ((m : ℤ) : ℚ) / 4 := by
          subst hm
          push_cast
          ring
        rw [hnm]
        refine roundDouble_quarter (by omega) ?_
        have hmlt : m < 4 * 2 ^ 47 := by omega
        exact_mod_cast hmlt
      rw [hx, if_neg, if_pos ((pyQuarterRem_eq_zero_iff _).mpr ⟨m, rfl⟩),
        if_neg h100, if_pos h25n]
      intro hceq
      have hden : (((m : ℤ) : ℚ) / 4).den = 1 := (rhe_cast_eq_self_iff _).mp hceq.symm
      have hnum : ((((m : ℤ) : ℚ) / 4).num : ℚ) = ((m : ℤ) : ℚ) / 4 :=
        (Rat.den_eq_one_iff _).mp hden
      have hm4 : (m : ℤ) = 4 * (((m : ℤ) : ℚ) / 4).num := by
        have h4 : (4 : ℚ) * ((((m : ℤ) : ℚ) / 4).num : ℚ) = ((m : ℤ) : ℚ) := by
          rw [hnum]
          ring
        exact_mod_cast h4.symm
      omega
    · have hn0 : 0 < n := by omega
      have hqpos : 0 < (n : ℚ) / 100 := by positivity
      have hqlt : (n : ℚ) / 100 < (2 : ℚ) ^ 47 := by
        rw [div_lt_iff (by norm_num : (0 : ℚ) < 100)]
        have hnb : (n : ℚ) < 100 * 2 ^ 47 := by exact_mod_cast hb
        linarith
      have herr := roundDouble_err hqpos hqlt
      have h128 : ((2 : ℚ) ^ ((47 : ℕ) : ℤ)) / 2 ^ 54 = 1 / 128 := by norm_num
      rw [h128] at herr
      have hkey : ∀ z : ℤ, roundDouble ((n : ℚ) / 100) ≠ (z : ℚ) / 4 := by
        intro z hxz
        have hz25 : (25 * z : ℤ) ≠ (n : ℤ) := by
          intro hcontra
          omega
        have hdist : (1 : ℚ) / 100 ≤ |(z : ℚ) / 4 - (n : ℚ) / 100| := by
          have heq : (z : ℚ) / 4 - (n : ℚ) / 100 = ((25 * z - (n : ℤ) : ℤ) : ℚ) / 100 := by
            push_cast
            ring
          rw [heq, abs_div, abs_of_pos (by norm_num : (0 : ℚ) < 100)]
          have habs : (1 : ℤ) ≤ |25 * z - (n : ℤ)| :=
            Int.one_le_abs (sub_ne_zero.mpr hz25)
          have habsq : (1 : ℚ) ≤ |((25 * z - (n : ℤ) : ℤ) : ℚ)| := by
            rw [← Int.cast_abs]
            exact_mod_cast habs
          linarith [habsq]
        rw [hxz] at herr
        linarith
      rw [hq]
      have hnc : ¬(roundDouble ((n : ℚ) / 100) =
          ((rhe (roundDouble ((n : ℚ) / 100)) : ℤ) : ℚ)) := by
        intro hceq
        apply hkey (4 * rhe (roundDouble ((n : ℚ) / 100)))
        have h4w : ((4 * rhe (roundDouble ((n : ℚ) / 100)) : ℤ) : ℚ) / 4 =
            ((rhe (roundDouble ((n : ℚ) / 100)) : ℤ) : ℚ) := by
          push_cast
          ring
        rw [h4w]
        exact hceq
      have hnq : ¬(pyQuarterRem (roundDouble ((n : ℚ) / 100)) = 0) := by
        intro hquarter
        obtain ⟨z, hz⟩ := (pyQuarterRem_eq_zero_iff _).mp hquarter
        exact hkey z hz
      rw [if_neg hnc, if_neg hnq, if_neg h100, if_neg h25n]

/-! ## Characterization of the item-description bonus -/

/-- The Python double `0.2` exceeds one fifth by exactly `1 / (5 * 2 ^ 54)`. -/
theorem hd02_value : POINTS_ITEM_DESCRIPTION = 1 / 5 + 1 / (5 * 2 ^ 54) := by
  have hmk : POINTS_ITEM_DESCRIPTION = mkRat (2 ^ 54 + 1) (5 * 2 ^ 54) := by decide
  rw [hmk, mkRat_eq_div]
  norm_num

/-- Below `2 ^ 44` dollars, the float computation of the description bonus
agrees with the exact ceiling of one fifth of the price. -/
theorem itemDescriptionBonus_exact {p : String} {P : ℕ}
    (hp : parseAmount p = Option.some P) (hb : P < 100 * 2 ^ 44) :
    itemDescriptionBonus p = ⌈(P : ℚ) / 500⌉ := by
  have hmk100 : (mkRat (P : ℕ) 100 : ℚ) = (P : ℚ) / 100 := by
    rw [mkRat_eq_div]
    norm_num
  rw [itemDescriptionBonus, hp]
  simp only [Option.getD_some]
  rw [qmul_eq, hmk100, ratCeil_eq]
  by_cases hP0 : P = 0
  · subst hP0
    norm_num [roundDouble]
  · by_cases h500 : P % 500 = 0
    · obtain ⟨k, hk⟩ : ∃ k, P = 500 * k := ⟨P / 500, by omega⟩
      have hk0 : 0 < k := by omega
      have hkb : k < 2 ^ 43 := by omega
      have hx1 : roundDouble ((P : ℚ) / 100) = ((5 * k : ℤ) : ℚ) := by
        have h5k : (P : ℚ) / 100 = ((5 * k : ℤ) : ℚ) := by
          subst hk
          push_cast
          ring
        rw [h5k]
        refine roundDouble_intCast (by omega) ?_
        have h5k47 : 5 * k < 2 ^ 47 := by omega
        exact_mod_cast h5k47
      rw [hx1, hd02_value]
      have hyt : ((5 * k : ℤ) : ℚ) * (1 / 5 + 1 / (5 * 2 ^ 54)) =
          (k : ℚ) + (k : ℚ) / 2 ^ 54 := by
        push_cast
        field_simp
        ring
      rw [hyt, roundDouble_int_add_small (by omega) hkb]
      have hPv : (P : ℚ) / 500 = ((k : ℤ) : ℚ) := by
        subst hk
        push_cast
        ring
      rw [hPv, Int.ceil_intCast]
      exact_mod_cast Int.ceil_intCast (k : ℤ)
    · have hP1 : 1 ≤ P := by omega
      have hq1pos : (0 : ℚ) < (P : ℚ) / 100 := by positivity
      have hq1lt : (P : ℚ) / 100 < (2 : ℚ) ^ 44 := by
        rw [div_lt_iff (by norm_num : (0 : ℚ) < 100)]
        have hPb : (P : ℚ) < 100 * 2 ^ 44 := by exact_mod_cast hb
        linarith
      have herr1 := roundDouble_err hq1pos hq1lt
      have h2_44 : ((2 : ℚ) ^ ((44 : ℕ) : ℤ)) / 2 ^ 54 = 1 / 1024 := by norm_num
      rw [h2_44] at herr1
      set x1 := roundDouble ((P : ℚ) / 100) with hx1def
      clear_value x1
      obtain ⟨hx1lb, hx1ub⟩ := abs_le.mp herr1
      have hP100 : (1 : ℚ) / 100 ≤ (P : ℚ) / 100 := by
        have hP1q : (1 : ℚ) ≤ (P : ℚ) := by exact_mod_cast hP1
        linarith
      have hx1pos : 0 < x1 := by linarith
      have hyt_err : |x1 * POINTS_ITEM_DESCRIPTION - (P : ℚ) / 500| ≤ 3 / 4096 := by
        rw [hd02_value]
        have hexpand : x1 * (1 / 5 + 1 / (5 * 2 ^ 54)) - (P : ℚ) / 500 =
            (x1 - (P : ℚ) / 100) * (1 / 5 + 1 / (5 * 2 ^ 54)) +
              ((P : ℚ) / 100) * (1 / (5 * 2 ^ 54)) := by
          ring
        rw [hexpand]
        have h1 : |(x1 - (P : ℚ) / 100) * (1 / 5 + 1 / (5 * 2 ^ 54))| ≤
            (1 / 1024) * (1 / 4) := by
          rw [abs_mul]
          apply mul_le_mul herr1 _ (abs_nonneg _) (by norm_num)
          rw [abs_of_pos (by norm_num : (0 : ℚ) < 1 / 5 + 1 / (5 * 2 ^ 54))]
          norm_num
        have h2 : |((P : ℚ) / 100) * (1 / (5 * 2 ^ 54))| ≤
            (2 : ℚ) ^ 44 * (1 / (5 * 2 ^ 54)) := by
          rw [abs_mul, abs_of_pos hq1pos, abs_of_pos (by norm_num : (0 : ℚ) < 1 / (5 * 2 ^ 54))]
          exact mul_le_mul_of_nonneg_right hq1lt.le (by norm_num)
        calc |(x1 - (P : ℚ) / 100) * (1 / 5 + 1 / (5 * 2 ^ 54)) +
              ((P : ℚ) / 100) * (1 / (5 * 2 ^ 54))|
            ≤ |(x1 - (P : ℚ) / 100) * (1 / 5 + 1 / (5 * 2 ^ 54))| +
              |((P : ℚ) / 100) * (1 / (5 * 2 ^ 54))| := abs_add _ _
          _ ≤ (1 / 1024) * (1 / 4) + (2 : ℚ) ^ 44 * (1 / (5 * 2 ^ 54)) := by linarith
          _ ≤ 3 / 4096 := by norm_num
      have hytpos : 0 < x1 * POINTS_ITEM_DESCRIPTION := by
        rw [hd02_value]
        positivity
      have hytlt : x1 * POINTS_ITEM_DESCRIPTION < (2 : ℚ) ^ 43 := by
        rw [hd02_value]
        have hx1b : x1 ≤ (2 : ℚ) ^ 44 + 1 / 1024 := by linarith
        have hprod : x1 * (1 / 5 + 1 / (5 * 2 ^ 54)) ≤
            ((2 : ℚ) ^ 44 + 1 / 1024) * (1 / 5 + 1 / (5 * 2 ^ 54)) :=
          mul_le_mul_of_nonneg_right hx1b (by norm_num)
        calc x1 * (1 / 5 + 1 / (5 * 2 ^ 54))
            ≤ ((2 : ℚ) ^ 44 + 1 / 1024) * (1 / 5 + 1 / (5 * 2 ^ 54)) := hprod
          _ < (2 : ℚ) ^ 43 := by norm_num
      have herr2 := roundDouble_err hytpos hytlt
      have h2_43 : ((2 : ℚ) ^ ((43 : ℕ) : ℤ)) / 2 ^ 54 = 1 / 2048 := by norm_num
      rw [h2_43] at herr2
      set y := roundDouble (x1 * POINTS_ITEM_DESCRIPTION) with hydef
      clear_value y
      obtain ⟨hylb, hyub⟩ := abs_le.mp herr2
      obtain ⟨hvlb, hvub⟩ := abs_le.mp hyt_err
      set a := P / 500 with hadef
      have hPab : P = 500 * a + P % 500 := by omega
      have hb1 : 1 ≤ P % 500 := by omega
      have hb2 : P % 500 ≤ 499 := by omega
      have hveq : (P : ℚ) / 500 = (a : ℚ) + ((P % 500 : ℕ) : ℚ) / 500 := by
        rw [div_eq_iff (by norm_num : (500 : ℚ) ≠ 0), add_mul,
          div_mul_cancel₀ _ (by norm_num : (500 : ℚ) ≠ 0)]
        have hcast : (P : ℚ) = ((500 * a + P % 500 : ℕ) : ℚ) := by
          exact_mod_cast congrArg (fun t : ℕ => (t : ℚ)) hPab
        rw [hcast]
        push_cast
        ring
      have hbql : (1 : ℚ) / 500 ≤ ((P % 500 : ℕ) : ℚ) / 500 := by
        have hq : (1 : ℚ) ≤ ((P % 500 : ℕ) : ℚ) := by exact_mod_cast hb1
        linarith
      have hbqu : ((P % 500 : ℕ) : ℚ) / 500 ≤ 499 / 500 := by
        have hq : ((P % 500 : ℕ) : ℚ) ≤ 499 := by exact_mod_cast hb2
        linarith
      have hceil_bound : ∀ w : ℚ, (a : ℚ) < w → w ≤ (a : ℚ) + 1 → ⌈w⌉ = (a : ℤ) + 1 := by
        intro w hwl hwu
        refine le_antisymm (Int.ceil_le.mpr ?_) (Int.add_one_le_ceil_iff.mpr ?_)
        · push_cast
          linarith
        · push_cast
          linarith
      have hceily : ⌈y⌉ = (a : ℤ) + 1 := by
        apply hceil_bound
        · rw [hveq] at hvlb
          linarith
        · rw [hveq] at hvub
          linarith
      have hceilv : ⌈(P : ℚ) / 500⌉ = (a : ℤ) + 1 := by
        apply hceil_bound
        · rw [hveq]
          linarith
        · rw [hveq]
          linarith
      rw [hceily, hceilv]

/-! ## Characterization of the items traversal -/

theorem pyGetStr_mkItem_description (d p : String) :
    pyGetStr (mkItem d p) "shortDescription" = .ok d := rfl

theorem pyGetStr_mkItem_price (d p : String) :
    pyGetStr (mkItem d p) "price" = .ok p := rfl

theorem validate_item_ok {d p : String} (hdesc : matchDescription d = true)
    (hprice : (parseAmount p).isSome) : validate_item d p = .ok () := by
  obtain ⟨P, hP⟩ := Option.isSome_iff_exists.mp hprice
  simp [validate_item, hdesc, hP]

/-- The scoring loop over well-formed items computes the sum of the
per-item description bonuses. -/
theorem score_items_loop_eq (pairs : List (String × String))
    (h : ∀ dp ∈ pairs, matchDescription dp.1 = true ∧ (parseAmount dp.2).isSome) :
    score_items_loop (pairs.map (fun dp => mkItem dp.1 dp.2)) =
      .ok ((pairs.map (fun dp =>
        if (pyStrip dp.1).length % REWARD_ITEM_DESCRIPTION_LENGTH_FACTOR = 0 then
          itemDescriptionBonus dp.2 else 0)).sum) := by
  induction pairs with
  | nil => rfl
  | cons hd tl ih =>
      obtain ⟨hdesc, hprice⟩ := h hd (List.mem_cons_self hd tl)
      have htl := ih (fun dp hdp => h dp (List.mem_cons_of_mem hd hdp))
      simp only [List.map_cons, score_items_loop, bind, Except.bind,
        pyGetStr_mkItem_description, pyGetStr_mkItem_price,
        validate_item_ok hdesc hprice, htl, List.sum_cons]

/-- **C4** amended: for well-formed items whose prices stay below `2 ^ 44`
dollars, the items score is `floor(count / 2) * 5` plus, per item with
trimmed description length divisible by three, the exact ceiling of one
fifth of the price — in this range the float ceiling of the code coincides
with the exact one. -/
theorem claim_c4_amended (pairs : List (String × String))
    (h : ∀ dp ∈ pairs, matchDescription dp.1 = true ∧
      ∃ P : ℕ, parseAmount dp.2 = Option.some P ∧ P < 100 * 2 ^ 44) :
    score_items (pairs.map (fun dp => mkItem dp.1 dp.2)) =
      .ok ((pairs.length / 2 : ℕ) * 5 +
        (pairs.map (fun dp =>
          if (pyStrip dp.1).length % 3 = 0 then
            ⌈(((parseAmount dp.2).getD 0 : ℕ) : ℚ) / 500⌉
          else 0)).sum) := by
  have hloop := score_items_loop_eq pairs (by
    intro dp hdp
    obtain ⟨hdesc, P, hP, _⟩ := h dp hdp
    exact ⟨hdesc, by rw [hP]; rfl⟩)
  have hmap : pairs.map (fun dp =>
        if (pyStrip dp.1).length % REWARD_ITEM_DESCRIPTION_LENGTH_FACTOR = 0 then
          itemDescriptionBonus dp.2 else 0) =
      pairs.map (fun dp =>
        if (pyStrip dp.1).length % 3 = 0 then
          ⌈(((parseAmount dp.2).getD 0 : ℕ) : ℚ) / 500⌉
        else 0) := by
    apply List.map_congr_left
    intro dp hdp
    obtain ⟨_, P, hP, hPb⟩ := h dp hdp
    rw [REWARD_ITEM_DESCRIPTION_LENGTH_FACTOR]
    split
    · rw [itemDescriptionBonus_exact hP hPb, hP]
      rfl
    · rfl
  rw [score_items, hloop, hmap]
  simp only [List.length_map, POINTS_ITEMS_COUNT]
  rfl

/-! ## Store lemmas -/

theorem pyLookup_nil {α : Type} (k : String) : pyLookup ([] : List (String × α)) k = Option.none := rfl

theorem pyLookup_cons {α : Type} (k1 : String) (v : α) (rest : List (String × α)) (k : String) :
    pyLookup ((k1, v) :: rest) k = if k1 = k then Option.some v else pyLookup rest k := by
  by_cases h : k1 = k
  · simp [pyLookup, List.find?_cons_of_pos, h]
  · simp [pyLookup, List.find?_cons_of_neg, h]

theorem pyLookup_pyInsert_self {α : Type} (kvs : List (String × α)) (k : String) (v : α) :
    pyLookup (pyInsert kvs k v) k = Option.some v := by
  rw [pyInsert]
  split
  case isTrue h =>
    induction kvs with
    | nil => simp [pyLookup] at h
    | cons hd tl ih =>
        rw [pyLookup_cons] at h
        by_cases hk : hd.1 = k
        · simp only [List.map_cons, if_pos hk]
          rw [pyLookup_cons, if_pos rfl]
        · simp only [List.map_cons, if_neg hk]
          rw [pyLookup_cons, if_neg hk]
          rw [if_neg hk] at h
          exact ih h
  case isFalse h =>
    induction kvs with
    | nil => rw [List.nil_append, pyLookup_cons, if_pos rfl]
    | cons hd tl ih =>
        rw [pyLookup_cons] at h
        by_cases hk : hd.1 = k
        · rw [if_pos hk] at h
          simp at h
        · rw [if_neg hk] at h
          rw [List.cons_append, pyLookup_cons, if_neg hk]
          exact ih h

theorem pyLookup_map_replace {α : Type} (kvs : List (String × α)) (k k2 : String)
    (v : α) (hne : k2 ≠ k) :
    pyLookup (kvs.map (fun p => if p.1 = k then (k, v) else p)) k2 = pyLookup kvs k2 := by
  induction kvs with
  | nil => rfl
  | cons hd tl ih =>
      by_cases hk : hd.1 = k
      · simp only [List.map_cons, if_pos hk]
        rw [pyLookup_cons, pyLookup_cons, if_neg (fun hh => hne hh.symm),
          if_neg (fun hh => hne (hk ▸ hh).symm), ih]
      · simp only [List.map_cons, if_neg hk]
        rw [pyLookup_cons, pyLookup_cons, ih]

theorem pyLookup_append_single {α : Type} (kvs : List (String × α)) (k k2 : String)
    (v : α) (hne : k2 ≠ k) :
    pyLookup (kvs ++ [(k, v)]) k2 = pyLookup kvs k2 := by
  induction kvs with
  | nil =>
      rw [List.nil_append, pyLookup_cons, if_neg (fun hh => hne hh.symm)]
  | cons hd tl ih =>
      rw [List.cons_append, pyLookup_cons, pyLookup_cons, ih]

theorem pyLookup_pyInsert_other {α : Type} (kvs : List (String × α)) (k k2 : String)
    (v : α) (hne : k2 ≠ k) : pyLookup (pyInsert kvs k v) k2 = pyLookup kvs k2 := by
  rw [pyInsert]
  split
  · exact pyLookup_map_replace kvs k k2 v hne
  · exact pyLookup_append_single kvs k k2 v hne

/-- A submission either leaves the store unchanged or inserts exactly the
new id. -/
theorem process_receipt_store (s : List (String × ℤ)) (rid : String)
    (r : List (String × PyVal)) :
    (process_receipt s rid r).2 = s ∨
      ∃ p : ℤ, (process_receipt s rid r).2 = pyInsert s rid p := by
  rw [process_receipt]
  rcases validate_receipt_json_structure r with e | u
  · cases e <;> simp
  · rcases hc : calculate_points r with e | p
    · cases e <;> simp
    · exact Or.inr ⟨p, rfl⟩

/-- Requests that never submit with a given id preserve its store entry. -/
theorem runRequests_preserves (ops : List Request) (s : List (String × ℤ)) (rid : String)
    (hfresh : ∀ (rid2 : String) (r2 : List (String × PyVal)),
      Request.submit rid2 r2 ∈ ops → rid2 ≠ rid) :
    pyLookup (runRequests s ops) rid = pyLookup s rid := by
  induction ops generalizing s with
  | nil => rfl
  | cons op rest ih =>
      rw [runRequests]
      have hstep : pyLookup (step s op) rid = pyLookup s rid := by
        cases op with
        | submit rid2 r2 =>
            have hne : rid2 ≠ rid := hfresh rid2 r2 (List.mem_cons_self _ _)
            rw [step]
            rcases process_receipt_store s rid2 r2 with hs | ⟨p, hs⟩
            · rw [hs]
            · rw [hs, pyLookup_pyInsert_other _ _ _ _ (fun hh => hne hh.symm)]
        | retrieve rid2 => rfl
      rw [ih (step s op) (fun rid2 r2 hmem => hfresh rid2 r2 (List.mem_cons_of_mem _ hmem)),
        hstep]

/-! ## Congruence of validation and scoring in the declared fields -/

theorem itemAgree_cases (a b : PyVal) (hab : itemAgree a b) :
    a = b ∨ ∃ k1 k2, a = .dict k1 ∧ b = .dict k2 ∧
      pyLookup k1 "shortDescription" = pyLookup k2 "shortDescription" ∧
      pyLookup k1 "price" = pyLookup k2 "price" := by
  cases a <;> cases b <;>
    first
      | exact Or.inr ⟨_, _, rfl, rfl, hab.1, hab.2⟩
      | exact Or.inl hab

theorem itemsAgree_cases (o1 o2 : Option PyVal) (h : itemsAgree o1 o2) :
    o1 = o2 ∨ ∃ l1 l2, o1 = Option.some (.list l1) ∧ o2 = Option.some (.list l2) ∧
      List.Forall₂ itemAgree l1 l2 := by
  rcases o1 with _ | v1
  · exact Or.inl h
  · rcases o2 with _ | v2
    · cases v1 <;> exact Or.inl h
    · cases v1 <;> cases v2 <;>
        first
          | exact Or.inr ⟨_, _, rfl, rfl, h⟩
          | exact Or.inl h

theorem validate_attributes_loop_congr {r1 r2 : List (String × PyVal)} (attrs : List String)
    (h : ∀ a ∈ attrs, pyLookup r1 a = pyLookup r2 a ∨
      (a = "items" ∧ (pyLookup r1 a).isSome = (pyLookup r2 a).isSome)) :
    validate_attributes_loop r1 attrs = validate_attributes_loop r2 attrs := by
  induction attrs with
  | nil => rfl
  | cons a rest ih =>
      have hrest := ih (fun a2 h2 => h a2 (List.mem_cons_of_mem _ h2))
      rcases h a (List.mem_cons_self _ _) with heq | ⟨ha, hsome⟩
      · rw [validate_attributes_loop, validate_attributes_loop, heq]
        cases pyLookup r2 a with
        | none => rfl
        | some v =>
            by_cases hc : ¬a = "items" ∧ ¬v.isStr = true
            · simp only [if_pos hc]
            · simp only [if_neg hc]
              exact hrest
      · subst ha
        rw [validate_attributes_loop, validate_attributes_loop]
        rcases h1 : pyLookup r1 "items" with _ | v1 <;>
          rcases h2 : pyLookup r2 "items" with _ | v2
        · rfl
        · rw [h1, h2] at hsome
          simp at hsome
        · rw [h1, h2] at hsome
          simp at hsome
        · have hc1 : ¬(¬"items" = "items" ∧ ¬v1.isStr = true) := by simp
          have hc2 : ¬(¬"items" = "items" ∧ ¬v2.isStr = true) := by simp
          simp only [if_neg hc1, if_neg hc2]
          exact hrest

theorem validate_items_loop_congr : ∀ {l1 l2 : List PyVal},
    List.Forall₂ itemAgree l1 l2 → validate_items_loop l1 = validate_items_loop l2 := by
  intro l1 l2 h
  induction h with
  | nil => rfl
  | @cons a b t1 t2 hab hrest ih =>
      rcases itemAgree_cases a b hab with heq | ⟨k1, k2, ha, hb, hsd, hpr⟩
      · subst heq
        cases a <;> simp only [validate_items_loop, ih]
      · subst ha
        subst hb
        have hstep1 : validate_item_attribute k1 "shortDescription" =
            validate_item_attribute k2 "shortDescription" := by
          rw [validate_item_attribute, validate_item_attribute, hsd]
        have hstep2 : validate_item_attribute k1 "price" = validate_item_attribute k2 "price" := by
          rw [validate_item_attribute, validate_item_attribute, hpr]
        simp only [validate_items_loop, hstep1, hstep2, ih]

theorem score_items_loop_congr : ∀ {l1 l2 : List PyVal},
    List.Forall₂ itemAgree l1 l2 → score_items_loop l1 = score_items_loop l2 := by
  intro l1 l2 h
  induction h with
  | nil => rfl
  | @cons a b t1 t2 hab hrest ih =>
      rcases itemAgree_cases a b hab with heq | ⟨k1, k2, ha, hb, hsd, hpr⟩
      · subst heq
        simp only [score_items_loop, ih]
      · subst ha
        subst hb
        have hstep1 : pyGetStr (.dict k1) "shortDescription" =
            pyGetStr (.dict k2) "shortDescription" := by
          rw [pyGetStr, pyGetStr, hsd]
        have hstep2 : pyGetStr (.dict k1) "price" = pyGetStr (.dict k2) "price" := by
          rw [pyGetStr, pyGetStr, hpr]
        simp only [score_items_loop, hstep1, hstep2, ih]

theorem validate_congr {r1 r2 : List (String × PyVal)} (h : receiptAgree r1 r2) :
    validate_receipt_json_structure r1 = validate_receipt_json_structure r2 := by
  obtain ⟨hret, htot, hdate, htime, hitems⟩ := h
  have hitems_some : (pyLookup r1 "items").isSome = (pyLookup r2 "items").isSome := by
    rcases itemsAgree_cases _ _ hitems with heq | ⟨l1, l2, h1, h2, _⟩
    · rw [heq]
    · rw [h1, h2]
      rfl
  have hloop := @validate_attributes_loop_congr r1 r2 required_receipt_attributes ?hattrs
  case hattrs =>
    intro a ha
    simp only [required_receipt_attributes, List.mem_cons, List.mem_singleton] at ha
    rcases ha with rfl | rfl | rfl | rfl | rfl | hfalse
    · exact Or.inl hret
    · exact Or.inl htot
    · exact Or.inr ⟨rfl, hitems_some⟩
    · exact Or.inl hdate
    · exact Or.inl htime
    · exact absurd hfalse (List.not_mem_nil a)
  rw [validate_receipt_json_structure, validate_receipt_json_structure]
  rcases itemsAgree_cases _ _ hitems with heq | ⟨l1, l2, h1, h2, hf⟩
  · simp only [hloop, heq]
  · simp only [hloop, h1, h2, hf.length_eq, validate_items_loop_congr hf]

theorem calculate_congr {r1 r2 : List (String × PyVal)} (h : receiptAgree r1 r2) :
    calculate_points r1 = calculate_points r2 := by
  obtain ⟨hret, htot, hdate, htime, hitems⟩ := h
  have hr : receiptGetStr r1 "retailer" = receiptGetStr r2 "retailer" := by
    rw [receiptGetStr, receiptGetStr, hret]
  have ht : receiptGetStr r1 "total" = receiptGetStr r2 "total" := by
    rw [receiptGetStr, receiptGetStr, htot]
  have hd : receiptGetStr r1 "purchaseDate" = receiptGetStr r2 "purchaseDate" := by
    rw [receiptGetStr, receiptGetStr, hdate]
  have htm : receiptGetStr r1 "purchaseTime" = receiptGetStr r2 "purchaseTime" := by
    rw [receiptGetStr, receiptGetStr, htime]
  rcases itemsAgree_cases _ _ hitems with heq | ⟨l1, l2, h1, h2, hf⟩
  · simp only [calculate_points, hr, ht, hd, htm, heq]
  · have hscore : score_items l1 = score_items l2 := by
      simp only [score_items, score_items_loop_congr hf, hf.length_eq]
    simp only [calculate_points, hr, ht, hd, htm, h1, h2, bind, Except.bind, hscore]

/-! ## The claims -/

/-- **C1**: the two fully specified example receipts pass structural
validation and the end-to-end scoring function returns exactly the stated
totals: 28 points for the 5-item Target receipt and 109 points for the
4-item Gatorade receipt. -/
theorem claim_c1 :
    validate_receipt_json_structure targetReceipt = .ok () ∧
      calculate_points targetReceipt = .ok 28 ∧
      validate_receipt_json_structure gatoradeReceipt = .ok () ∧
      calculate_points gatoradeReceipt = .ok 109 :=
  ⟨by decide, by decide, by decide, by decide⟩

/-- **C2** (code bug): the retailer string " a" contains a non-whitespace
character, yet validation rejects it with the InvalidRetailerName message,
because the regex match is anchored at the start of the string; scoring
therefore also fails on it. -/
theorem claim_c2_bug :
    (" a".toList.any (fun c => ¬ pyIsSpace c)) = true ∧
      validate_retailer_name " a" =
        .error (.valueError "Error: invalid receipt retailer name ( a)") ∧
      score_retailer " a" =
        .error (.valueError "Error: invalid receipt retailer name ( a)") :=
  ⟨by decide, by decide, by decide⟩

/-- **C3** counterexample: the total string "140737488355328.01" (the
cent value 14073748835532801 has cents 01, not a multiple of 25) is scored
75 by the code — the binary64 value of the total is exactly the integer
2 ^ 47 — while the claim as stated demands contribution 0. -/
theorem claim_c3_counterexample :
    parseAmount "140737488355328.01" = Option.some 14073748835532801 ∧
      ¬ 14073748835532801 % 100 = 0 ∧
      ¬ 14073748835532801 % 25 = 0 ∧
      score_total "140737488355328.01" = .ok 75 ∧
      score_total "140737488355328.01" ≠ .ok 0 :=
  ⟨by decide, by decide, by decide, by decide, by decide⟩

/-- **C3** amended witness: at the in-range total "9.00" the amended
characterization applies and yields the full 75 bonus. -/
theorem claim_c3_amended_witness : score_total "9.00" = .ok 75 :=
  (@claim_c3_amended "9.00" 900 (by decide) (by norm_num)).trans (by decide)

/-- **C4** counterexample: for the price "4503599627370500.01" (cent value
450359962737050001) the code computes bonus 900719925474100, while the
exact ceiling of one fifth of the price is 900719925474101; on a one-item
list with description "abc" the claimed formula therefore disagrees with
the code. -/
theorem claim_c4_counterexample :
    parseAmount "4503599627370500.01" = Option.some 450359962737050001 ∧
      score_items [mkItem "abc" "4503599627370500.01"] = .ok 900719925474100 ∧
      ⌈((450359962737050001 : ℕ) : ℚ) / 500⌉ = 900719925474101 ∧
      score_items [mkItem "abc" "4503599627370500.01"] ≠
        .ok ((1 / 2 : ℕ) * 5 + ⌈((450359962737050001 : ℕ) : ℚ) / 500⌉) := by
  have hceil : ⌈((450359962737050001 : ℕ) : ℚ) / 500⌉ = 900719925474101 := by
    have hval : ((450359962737050001 : ℕ) : ℚ) / 500 = mkRat 450359962737050001 500 := by
      rw [mkRat_eq_div]
      norm_num
    rw [hval, ← ratCeil_eq]
    decide
  refine ⟨by decide, by decide, hceil, ?_⟩
  rw [hceil]
  decide

/-- **C4** amended witness: the amended items-score formula applied to the
single in-range item ("abc", "12.25"). -/
theorem claim_c4_amended_witness :
    score_items ([("abc", "12.25")].map (fun dp => mkItem dp.1 dp.2)) =
      .ok ((([("abc", "12.25")] : List (String × String)).length / 2 : ℕ) * 5 +
        ([("abc", "12.25")].map (fun dp =>
          if (pyStrip dp.1).length % 3 = 0 then
            ⌈(((parseAmount dp.2).getD 0 : ℕ) : ℚ) / 500⌉
          else 0)).sum) :=
  claim_c4_amended [("abc", "12.25")] (by
    intro dp hdp
    have hdp2 := List.mem_singleton.mp hdp
    subst hdp2
    exact ⟨by decide, 1225, by decide, by norm_num⟩)

/-- **C5** counterexample: a receipt whose retailer has the wrong type and
whose purchaseTime is missing is rejected with the retailer format error,
not with the missing-field error the claimed precedence demands. -/
theorem claim_c5_counterexample :
    (pyLookup badTypeMissingFieldReceipt "purchaseTime").isNone = true ∧
      (badTypeMissingFieldReceipt.map (fun p => p.1)).contains "retailer" = true ∧
      validate_receipt_json_structure badTypeMissingFieldReceipt =
        .error (.valueError "Error: invalid retailer format") ∧
      validate_receipt_json_structure badTypeMissingFieldReceipt ≠
        .error (.valueError "Error: missing purchaseTime in receipt") :=
  ⟨by decide, by decide, by decide, by decide⟩

/-- **C5** amended: presence and type checks are interleaved per field in
the listed order (a wrong-typed earlier field wins over a later missing
field); the per-item type checks run for all items during structure
validation, before any description/price format check, and the format
checks only surface during the scoring traversal. -/
theorem claim_c5_amended :
    (∀ r : List (String × PyVal), pyLookup r "retailer" = Option.none →
        validate_receipt_json_structure r =
          .error (.valueError "Error: missing retailer in receipt")) ∧
      (∀ (v : PyVal) (rest : List (String × PyVal)), v.isStr = false →
        validate_receipt_json_structure (("retailer", v) :: rest) =
          .error (.valueError "Error: invalid retailer format")) ∧
      (∀ d : String,
        validate_receipt_json_structure (mkReceipt [mkItem d "1.25", .int 7]) =
          .error (.valueError "Error: invalid receipt item format")) ∧
      (∀ (d : String) (rest : List PyVal), matchDescription d = false →
        score_items (mkItem d "1.25" :: rest) =
          .error (.valueError s!"Error: invalid item description ({d})")) := by
  refine ⟨?_, ?_, ?_, ?_⟩
  · intro r h
    simp only [validate_receipt_json_structure, required_receipt_attributes,
      validate_attributes_loop, h, bind, Except.bind]
    rfl
  · intro v rest h
    simp [validate_receipt_json_structure, required_receipt_attributes,
      validate_attributes_loop, pyLookup_cons, h, bind, Except.bind]
    rfl
  · intro d
    rfl
  · intro d rest h
    simp only [score_items, score_items_loop, pyGetStr_mkItem_description,
      pyGetStr_mkItem_price, validate_item, h, bind, Except.bind]
    rfl

/-- **C5** amended witness: the four amended precedence statements at
concrete inputs. -/
theorem claim_c5_amended_witness :
    validate_receipt_json_structure [] =
        .error (.valueError "Error: missing retailer in receipt") ∧
      validate_receipt_json_structure [("retailer", .int 5)] =
        .error (.valueError "Error: invalid retailer format") ∧
      validate_receipt_json_structure (mkReceipt [mkItem "???" "1.25", .int 7]) =
        .error (.valueError "Error: invalid receipt item format") ∧
      score_items [mkItem "???" "1.25"] =
        .error (.valueError "Error: invalid item description (???)") :=
  ⟨claim_c5_amended.1 [] rfl,
   claim_c5_amended.2.1 (.int 5) [] (by decide),
   claim_c5_amended.2.2.1 "???",
   (claim_c5_amended.2.2.2 "???" [] (by decide)).trans (by decide)⟩

/-- **C6** (code bug): a receipt whose only item lacks the
shortDescription key does not surface the InvalidItemFormat taxonomy error;
the lookup raises a KeyError, which the handler does not catch, so the
failure escapes the core instead of producing a 400 with a taxonomy
message. -/
theorem claim_c6_bug :
    validate_receipt_json_structure missingDescriptionReceipt =
        .error (.keyError "shortDescription") ∧
      process_receipt [] "id-6" missingDescriptionReceipt =
        (.uncaught (.keyError "shortDescription"), []) :=
  ⟨by decide, by decide⟩

/-- **C7** (code bug): submitting a receipt whose only item lacks the
price key leaves the store unchanged but the caller does not receive a
400 response — the KeyError escapes the handler uncaught. -/
theorem claim_c7_bug :
    process_receipt [] "id-7" missingPriceReceipt =
      (.uncaught (.keyError "price"), []) := by decide

/-- **C8**: a successful submission stores the computed points under the
returned id; any later sequence of requests that never submits with that
same id (ids are fresh uuids) preserves the entry, so every subsequent
retrieval returns 200 with exactly the submitted points; retrieval never
modifies the store. -/
theorem claim_c8 (s : List (String × ℤ)) (rid : String) (r : List (String × PyVal))
    (p : ℤ) (ops : List Request)
    (hval : validate_receipt_json_structure r = .ok ())
    (hcalc : calculate_points r = .ok p)
    (hfresh : ∀ (rid2 : String) (r2 : List (String × PyVal)),
      Request.submit rid2 r2 ∈ ops → rid2 ≠ rid) :
    (process_receipt s rid r).1 = .success rid ∧
      get_points (process_receipt s rid r).2 rid = .found p ∧
      get_points (runRequests (process_receipt s rid r).2 ops) rid = .found p ∧
      (∀ (s2 : List (String × ℤ)) (rid2 : String), step s2 (.retrieve rid2) = s2) := by
  have hproc : process_receipt s rid r = (.success rid, pyInsert s rid p) := by
    rw [process_receipt, hval, hcalc]
  refine ⟨by rw [hproc], ?_, ?_, fun s2 rid2 => rfl⟩
  · rw [hproc, get_points, pyLookup_pyInsert_self]
  · rw [hproc, get_points, runRequests_preserves ops _ rid hfresh, pyLookup_pyInsert_self]

/-- **C8** witness: submit the simple receipt, run a retrieval, a fresh
submission and another retrieval; the original id still returns 31. -/
theorem claim_c8_witness :
    (process_receipt [] "id0" simpleReceipt).1 = .success "id0" ∧
      get_points (process_receipt [] "id0" simpleReceipt).2 "id0" = .found 31 ∧
      get_points (runRequests (process_receipt [] "id0" simpleReceipt).2
        [.retrieve "id0", .submit "id1" simpleReceipt, .retrieve "id0"]) "id0" =
        .found 31 := by
  have h := claim_c8 [] "id0" simpleReceipt 31
    [.retrieve "id0", .submit "id1" simpleReceipt, .retrieve "id0"]
    (by decide) (by decide) ?hfresh
  case hfresh =>
    intro rid2 r2 hmem
    simp only [List.mem_cons, List.not_mem_nil, or_false] at hmem
    rcases hmem with h1 | h2 | h3
    · exact absurd h1 (by intro hh; cases hh)
    · injection h2 with hid hr
      subst hid
      decide
    · exact absurd h3 (by intro hh; cases hh)
  exact ⟨h.1, h.2.1, h.2.2.1⟩

/-- **C10**: validation and scoring depend only on the declared fields —
receipts that agree on the four scalar fields and item-by-item on
shortDescription and price produce identical validation outcomes and
identical scores, whatever extra keys they carry. -/
theorem claim_c10 (r1 r2 : List (String × PyVal)) (h : receiptAgree r1 r2) :
    validate_receipt_json_structure r1 = validate_receipt_json_structure r2 ∧
      calculate_points r1 = calculate_points r2 :=
  ⟨validate_congr h, calculate_congr h⟩

/-- **C10** witness: the simple receipt and its decoration with an extra
top-level key and an extra item key validate and score identically. -/
theorem claim_c10_witness :
    validate_receipt_json_structure simpleReceipt =
        validate_receipt_json_structure decoratedSimpleReceipt ∧
      calculate_points simpleReceipt = calculate_points decoratedSimpleReceipt :=
  claim_c10 simpleReceipt decoratedSimpleReceipt
    ⟨rfl, rfl, rfl, rfl, List.Forall₂.cons ⟨rfl, rfl⟩ List.Forall₂.nil⟩

end ReceiptApp
